import Mathlib

set_option maxHeartbeats 1000000

/- Verification development for the core index coordinator of the tantivy
search engine (White-Oak/tantivy): the IndexMeta record and its
persistence to meta.json, the WORM directory model, the searcher pool,
and the segment publication protocol of src/core/index.rs. -/

/-- Segment identifiers are opaque ids with equality and hashability
(core::SegmentId, random 128-bit values); modelled as naturals. -/
abbrev SegmentId := Nat

/-- MetaInformation about the Index, serialized on disk in the meta.json
file (IndexMeta in src/core/index.rs): the searchable segments, the
schema and the index docstamp. The schema is opaque and carried
verbatim; it is modelled as a natural number. -/
structure IndexMeta where
  segments : List SegmentId
  schema : Nat
  docstamp : Nat
deriving Repr, DecidableEq

/-- IndexMeta::with_schema: empty segments, docstamp 0. -/
def IndexMeta.with_schema (schema : Nat) : IndexMeta :=
  { segments := [], schema := schema, docstamp := 0 }

/-- Errors of the directory layer (directory::error::FileError, declared
outside src/; the kinds are those named in directory.rs and the spec). -/
inductive FileError where
  | doesNotExist (p : String)
  | ioError
deriving Repr, DecidableEq

/-- Domain errors of the index (the crate Error enum is outside src/;
kinds are modelled from the spec, section 7). Segment-open failures are
the spec's CorruptedFile on a segment file; they are kept as a separate
kind because a segment file path is never meta.json. -/
inductive IndexError where
  | fileAlreadyExists (p : String)
  | doesNotExist (p : String)
  | corruptedFile (p : String)
  | ioError
  | lockPoisoned
  | segmentOpenError (sid : SegmentId)
deriving Repr, DecidableEq

/-- Modelled from the spec: the in-memory directory (RAMDirectory) and
the shared-buffer ReadOnlySource of src/directory, whose implementations
are not under src/. Byte buffers live in a heap that is only ever
appended to; files map paths to buffer indices. A ReadOnlySource is a
buffer index, so deleting a path unbinds the path but leaves every
outstanding source readable with unchanged bytes (spec section 4.1). -/
structure RAMStore where
  buffers : List (List Nat)
  files : List (String × Nat)
deriving Repr, DecidableEq

def RAMStore.empty : RAMStore := { buffers := [], files := [] }

/-- First-match association lookup over the file table. -/
def lookupFile : List (String × Nat) → String → Option Nat
  | [], _ => none
  | (q, bid) :: rest, p => if q = p then some bid else lookupFile rest p

/-- Remove every binding of a path from the file table. -/
def eraseKey (files : List (String × Nat)) (p : String) : List (String × Nat) :=
  files.filter (fun e => !(e.1 == p))

/-- Directory::open_read: returns a ReadOnlySource (a buffer index) whose
bytes may not change afterwards; DoesNotExist when the path is unbound. -/
def RAMStore.open_read (store : RAMStore) (p : String) : Except FileError Nat :=
  match lookupFile store.files p with
  | some bid => .ok bid
  | none => .error (.doesNotExist p)

/-- Reading the bytes of a ReadOnlySource out of the heap. -/
def readSource (store : RAMStore) (bid : Nat) : Option (List Nat) :=
  store.buffers[bid]?

/-- The bytes currently bound to a path, if any. -/
def readBytes (store : RAMStore) (p : String) : Option (List Nat) :=
  match lookupFile store.files p with
  | some bid => store.buffers[bid]?
  | none => none

/-- Directory::atomic_write: atomically replace the content of the file;
all-or-nothing as observed by readers. A fresh buffer is appended and the
path rebound to it, so older sources are untouched. -/
def RAMStore.atomic_write (store : RAMStore) (p : String) (data : List Nat) : RAMStore :=
  { buffers := store.buffers ++ [data],
    files := (p, store.buffers.length) :: eraseKey store.files p }

/-- Directory::delete: removes the virtual entry; does not affect an
existing ReadOnlySource pointing to it; DoesNotExist when absent. -/
def RAMStore.delete (store : RAMStore) (p : String) : Except FileError RAMStore :=
  match lookupFile store.files p with
  | some _ => .ok { store with files := eraseKey store.files p }
  | none => .error (.doesNotExist p)

/-- Modelled from the spec: the searcher pool (core::pool, not under
src/): a generation counter plus the queue of ready searchers; a
Searcher is modelled by the list of segment ids of its readers. -/
structure Pool where
  generation : Nat
  queue : List (List SegmentId)
deriving Repr, DecidableEq

def Pool.new : Pool := { generation := 0, queue := [] }

/-- The environment of one operation: the outcome the filesystem gives to
atomic_write, and which segments SegmentReader::open (external to the
repository) can open. -/
structure Env where
  writeOk : Bool
  openOk : SegmentId → Bool

/-- Tantivy's search Index (struct Index of src/core/index.rs): the meta
record, the directory (its backing store), a cached schema copy and the
searcher pool. -/
structure Index where
  metas : IndexMeta
  store : RAMStore
  schema : Nat
  pool : Pool

def NUM_SEARCHERS : Nat := 12

def META_FILEPATH : String := "meta.json"

/-- Decimal digit character: 48 + d. -/
def decChar (d : Nat) : Char := Char.ofNat (48 + d)

/-- Fuel-driven decimal rendering loop (most significant digit first). -/
def natCharsGo : Nat → Nat → List Char → List Char
  | 0, _, acc => acc
  | fuel + 1, n, acc =>
      if n = 0 then acc else natCharsGo fuel (n / 10) (decChar (n % 10) :: acc)

/-- Decimal rendering of a natural number. -/
def natChars (n : Nat) : List Char :=
  if n = 0 then ['0'] else natCharsGo n n []

def lbrace : Char := Char.ofNat 123

def rbrace : Char := Char.ofNat 125

/-- Rendering of the tail of the segments array: each further id is
preceded by a comma and a space; the array is closed with a bracket. -/
def encSegsTail : List SegmentId → List Char
  | [] => [']']
  | sid :: rest => ',' :: ' ' :: (natChars sid ++ encSegsTail rest)

/-- Rendering of the inside of the segments array (the opening bracket is
emitted by the surrounding object rendering). -/
def encSegsInner : List SegmentId → List Char
  | [] => [']']
  | sid :: rest => natChars sid ++ encSegsTail rest

/-- Modelled from the spec: the JSON rendering of IndexMeta performed by
the external rustc_serialize crate in save_metas, following the layout of
spec section 6 with the trailing newline. -/
def encodeMeta (m : IndexMeta) : List Char :=
  lbrace :: ("\"segments\": [".data ++ encSegsInner m.segments
    ++ ", \"schema\": ".data ++ natChars m.schema
    ++ ", \"docstamp\": ".data ++ natChars m.docstamp
    ++ [rbrace, '\n'])

def isDigitChar (c : Char) : Bool := 48 ≤ c.toNat && c.toNat ≤ 57

def digitVal (c : Char) : Nat := c.toNat - 48

/-- Match a literal character sequence at the front of the input and
return the remainder. -/
def strLit : List Char → List Char → Option (List Char)
  | [], input => some input
  | _ :: _, [] => none
  | c :: cs, d :: ds => if c = d then strLit cs ds else none

/-- Consume further decimal digits, accumulating their value. -/
def parseNatAux : Nat → List Char → Nat × List Char
  | acc, [] => (acc, [])
  | acc, c :: cs =>
      if isDigitChar c then parseNatAux (10 * acc + digitVal c) cs else (acc, c :: cs)

/-- Parse a decimal number (at least one digit required). -/
def parseNatNum : List Char → Option (Nat × List Char)
  | [] => none
  | c :: cs => if isDigitChar c then some (parseNatAux (digitVal c) cs) else none

/-- Parse the tail of the segments array: either the closing bracket, or
a comma, a space and one more number. -/
def parseSegsLoop : Nat → List Char → Option (List SegmentId × List Char)
  | _, ']' :: rest => some ([], rest)
  | fuel + 1, ',' :: ' ' :: rest =>
      match parseNatNum rest with
      | some (n, rest1) =>
          match parseSegsLoop fuel rest1 with
          | some (ns, rest2) => some (n :: ns, rest2)
          | none => none
      | none => none
  | _, _ => none

/-- Parse the inside of the segments array. -/
def parseSegsInner (input : List Char) : Option (List SegmentId × List Char) :=
  if input.head? = some ']' then some ([], input.tail)
  else
    match parseNatNum input with
    | some (n, rest) =>
        match parseSegsLoop rest.length rest with
        | some (ns, rest1) => some (n :: ns, rest1)
        | none => none
    | none => none

def isJsonWs (c : Char) : Bool := c = ' ' || c = '\n' || c = '\t' || c = '\r'

/-- Modelled from the spec: the JSON parsing of an IndexMeta document
performed by the external rustc_serialize crate in load_metas; accepts
the document layout of spec section 6 with trailing whitespace. -/
def decodeMeta (input : List Char) : Option IndexMeta :=
  match strLit (lbrace :: "\"segments\": [".data) input with
  | none => none
  | some r1 =>
      match parseSegsInner r1 with
      | none => none
      | some (segs, r2) =>
          match strLit ", \"schema\": ".data r2 with
          | none => none
          | some r3 =>
              match parseNatNum r3 with
              | none => none
              | some (sc, r4) =>
                  match strLit ", \"docstamp\": ".data r4 with
                  | none => none
                  | some r5 =>
                      match parseNatNum r5 with
                      | none => none
                      | some (ds, r6) =>
                          match strLit [rbrace] r6 with
                          | none => none
                          | some r7 =>
                              if r7.all isJsonWs then
                                some { segments := segs, schema := sc, docstamp := ds }
                              else none

/-- UTF-8 continuation byte test. -/
def isCont (b : Nat) : Bool := 128 ≤ b && b ≤ 191

/-- The replacement character U+FFFD. -/
def replChar : Char := Char.ofNat 0xFFFD

/-- Admissible first continuation byte of a three-byte sequence. -/
def cont1of3 (b c1 : Nat) : Bool :=
  if b = 224 then 160 ≤ c1 && c1 ≤ 191
  else if b = 237 then 128 ≤ c1 && c1 ≤ 159
  else isCont c1

/-- Admissible first continuation byte of a four-byte sequence. -/
def cont1of4 (b c1 : Nat) : Bool :=
  if b = 240 then 144 ≤ c1 && c1 ≤ 191
  else if b = 244 then 128 ≤ c1 && c1 ≤ 143
  else isCont c1

/-- Fuel-driven UTF-8 decoding loop: valid sequences decode to their code
point, invalid bytes become the replacement character. -/
def utf8Go : Nat → List Nat → List Char
  | _, [] => []
  | 0, _ :: _ => []
  | fuel + 1, b :: rest =>
      if b < 128 then Char.ofNat b :: utf8Go fuel rest
      else if 194 ≤ b && b ≤ 223 then
        match rest with
        | c1 :: r =>
            if isCont c1 then Char.ofNat ((b - 192) * 64 + (c1 - 128)) :: utf8Go fuel r
            else replChar :: utf8Go fuel rest
        | [] => [replChar]
      else if 224 ≤ b && b ≤ 239 then
        match rest with
        | c1 :: c2 :: r =>
            if cont1of3 b c1 && isCont c2 then
              Char.ofNat ((b - 224) * 4096 + (c1 - 128) * 64 + (c2 - 128)) :: utf8Go fuel r
            else replChar :: utf8Go fuel rest
        | _ => replChar :: utf8Go fuel rest
      else if 240 ≤ b && b ≤ 244 then
        match rest with
        | c1 :: c2 :: c3 :: r =>
            if cont1of4 b c1 && isCont c2 && isCont c3 then
              Char.ofNat ((b - 240) * 262144 + (c1 - 128) * 4096
                + (c2 - 128) * 64 + (c3 - 128)) :: utf8Go fuel r
            else replChar :: utf8Go fuel rest
        | _ => replChar :: utf8Go fuel rest
      else replChar :: utf8Go fuel rest

/-- Modelled from the spec: String::from_utf8_lossy of the Rust standard
library (external to the repository), as called by load_metas: a total
conversion of arbitrary bytes to characters. -/
def utf8Lossy (bs : List Nat) : List Char := utf8Go bs.length bs

/-- load_metas (src/core/index.rs, lines 54-62): open meta.json for read,
convert the bytes with lossy UTF-8 decoding, parse the resulting text,
mapping a parse failure to CorruptedFile(meta.json). -/
def load_metas (store : RAMStore) : Except IndexError IndexMeta :=
  match readBytes store META_FILEPATH with
  | none => .error (.doesNotExist META_FILEPATH)
  | some bytes =>
      match decodeMeta (utf8Lossy bytes) with
      | some m => .ok m
      | none => .error (.corruptedFile META_FILEPATH)

/-- Index::save_metas (lines 260-269): serialize the current meta with a
trailing newline and write it with atomic_write; on failure the store is
untouched (the atomic_write contract of directory.rs). -/
def save_metas (env : Env) (idx : Index) : Except IndexError Unit × Index :=
  let data := (encodeMeta idx.metas).map Char.toNat
  if env.writeOk then
    (.ok (), { idx with store := idx.store.atomic_write META_FILEPATH data })
  else (.error .ioError, idx)

/-- Index::load_searchers (lines 276-292): build NUM_SEARCHERS searchers,
each opening a SegmentReader for every current segment in order; the
first failing segment aborts the whole call, in which case the pool is
not touched; otherwise the searchers are published as one new pool
generation. -/
def load_searchers (env : Env) (idx : Index) : Except IndexError Unit × Index :=
  match idx.metas.segments.find? (fun sid => !env.openOk sid) with
  | some sid => (.error (.segmentOpenError sid), idx)
  | none =>
      (.ok (), { idx with pool :=
        { generation := idx.pool.generation + 1,
          queue := List.replicate NUM_SEARCHERS idx.metas.segments } })

/-- Index::publish_segments (lines 173-184): append the segment ids to
the meta under the write lock and set the docstamp, then save_metas,
then load_searchers. -/
def publish_segments (env : Env) (idx : Index) (segment_ids : List SegmentId)
    (docstamp : Nat) : Except IndexError Unit × Index :=
  let idx1 := { idx with metas :=
    { idx.metas with segments := idx.metas.segments ++ segment_ids,
                     docstamp := docstamp } }
  match save_metas env idx1 with
  | (.error e, idx2) => (.error e, idx2)
  | (.ok _, idx2) =>
      match load_searchers env idx2 with
      | (.error e, idx3) => (.error e, idx3)
      | (.ok _, idx3) => (.ok (), idx3)

/-- Index::publish_merge_segment (lines 187-202): keep the segments not
in the merged set, in order, push the merged segment id at the end, then
save_metas, then load_searchers; the docstamp is not touched. -/
def publish_merge_segment (env : Env) (idx : Index)
    (segment_merged_ids : List SegmentId) (merged_segment_id : SegmentId) :
    Except IndexError Unit × Index :=
  let idx1 := { idx with metas :=
    { idx.metas with segments :=
        idx.metas.segments.filter (fun sid => !segment_merged_ids.contains sid)
          ++ [merged_segment_id] } }
  match save_metas env idx1 with
  | (.error e, idx2) => (.error e, idx2)
  | (.ok _, idx2) =>
      match load_searchers env idx2 with
      | (.error e, idx3) => (.error e, idx3)
      | (.ok _, idx3) => (.ok (), idx3)

/-- Index::create_from_metas (lines 104-114): build the index with a
fresh pool and load the initial searchers; any failure aborts. -/
def create_from_metas (env : Env) (store : RAMStore) (metas : IndexMeta) :
    Except IndexError Index :=
  let idx : Index :=
    { metas := metas, store := store, schema := metas.schema, pool := Pool.new }
  match load_searchers env idx with
  | (.error e, _) => .error e
  | (.ok _, idx1) => .ok idx1

/-- Index::from_directory (lines 117-121): create from an empty meta with
the given schema, then persist the meta. -/
def from_directory (env : Env) (store : RAMStore) (schema : Nat) :
    Except IndexError Index :=
  match create_from_metas env store (IndexMeta.with_schema schema) with
  | .error e => .error e
  | .ok idx =>
      match save_metas env idx with
      | (.error e, _) => .error e
      | (.ok _, idx1) => .ok idx1

/-- Index::open (lines 124-128): load the meta from the directory and
build the index from it. -/
def openIndex (env : Env) (store : RAMStore) : Except IndexError Index :=
  match load_metas store with
  | .error e => .error e
  | .ok metas => create_from_metas env store metas

/-- The two mutating operations of the coordinator, for trace-level
invariants. -/
inductive Op where
  | publish (ids : List SegmentId) (docstamp : Nat)
  | merge (merged : List SegmentId) (result : SegmentId)

def applyOp (env : Env) (idx : Index) : Op → Except IndexError Unit × Index
  | .publish ids d => publish_segments env idx ids d
  | .merge ms r => publish_merge_segment env idx ms r

def runOps (env : Env) (idx : Index) : List Op → Index
  | [] => idx
  | op :: ops => runOps env (applyOp env idx op).2 ops

/-- save_metas never changes the in-memory meta. -/
theorem save_metas_metas (env : Env) (idx : Index) :
    ((save_metas env idx).2).metas = idx.metas := by
  cases h : env.writeOk <;> simp [save_metas, h]

/-- save_metas never changes the pool. -/
theorem save_metas_pool (env : Env) (idx : Index) :
    ((save_metas env idx).2).pool = idx.pool := by
  cases h : env.writeOk <;> simp [save_metas, h]

/-- save_metas never changes the cached schema. -/
theorem save_metas_schema (env : Env) (idx : Index) :
    ((save_metas env idx).2).schema = idx.schema := by
  cases h : env.writeOk <;> simp [save_metas, h]

/-- load_searchers never changes the in-memory meta. -/
theorem load_searchers_metas (env : Env) (idx : Index) :
    ((load_searchers env idx).2).metas = idx.metas := by
  cases h : idx.metas.segments.find? (fun sid => !env.openOk sid) <;>
    simp [load_searchers, h]

/-- load_searchers never changes the store. -/
theorem load_searchers_store (env : Env) (idx : Index) :
    ((load_searchers env idx).2).store = idx.store := by
  cases h : idx.metas.segments.find? (fun sid => !env.openOk sid) <;>
    simp [load_searchers, h]

/-- load_searchers never changes the cached schema. -/
theorem load_searchers_schema (env : Env) (idx : Index) :
    ((load_searchers env idx).2).schema = idx.schema := by
  cases h : idx.metas.segments.find? (fun sid => !env.openOk sid) <;>
    simp [load_searchers, h]

/-- The save-then-reload tail common to both publication operations
leaves the in-memory meta of its input unchanged, whether it succeeds or
fails. -/
theorem publish_chain_metas (env : Env) (j : Index) :
    ((match save_metas env j with
      | (.error e, j2) => ((.error e : Except IndexError Unit), j2)
      | (.ok _, j2) =>
          match load_searchers env j2 with
          | (.error e, j3) => ((.error e : Except IndexError Unit), j3)
          | (.ok _, j3) => (.ok (), j3)).2).metas = j.metas := by
  rcases h1 : save_metas env j with ⟨r1, j2⟩
  have e1 : j2.metas = j.metas := by
    have := save_metas_metas env j
    rwa [h1] at this
  cases r1 with
  | error e => simpa using e1
  | ok u =>
      rcases h2 : load_searchers env j2 with ⟨r2, j3⟩
      have e2 : j3.metas = j2.metas := by
        have := load_searchers_metas env j2
        rwa [h2] at this
      cases r2 <;> simpa [h2] using e2.trans e1

/-- In every outcome, publish_segments leaves the in-memory meta with the
segment ids appended, the docstamp set and the schema untouched. -/
theorem publish_segments_metas (env : Env) (idx : Index) (ids : List SegmentId)
    (d : Nat) :
    ((publish_segments env idx ids d).2).metas =
      { segments := idx.metas.segments ++ ids, schema := idx.metas.schema,
        docstamp := d } := by
  unfold publish_segments
  exact publish_chain_metas env _

/-- In every outcome, publish_merge_segment leaves the in-memory meta
with the merged ids filtered out, the result id at the end, and the
docstamp and schema untouched. -/
theorem publish_merge_segment_metas (env : Env) (idx : Index)
    (ms : List SegmentId) (rid : SegmentId) :
    ((publish_merge_segment env idx ms rid).2).metas =
      { segments := idx.metas.segments.filter (fun sid => !ms.contains sid)
          ++ [rid],
        schema := idx.metas.schema, docstamp := idx.metas.docstamp } := by
  unfold publish_merge_segment
  exact publish_chain_metas env _

/-- Erasing one path from the file table does not disturb the binding of
any other path. -/
theorem lookupFile_eraseKey_ne (files : List (String × Nat)) (p q : String)
    (hq : q ≠ p) : lookupFile (eraseKey files p) q = lookupFile files q := by
  induction files with
  | nil => rfl
  | cons e rest ih =>
      by_cases hp : e.1 = p
      · have : (e.1 == p) = true := by simpa using hp
        simp only [eraseKey, List.filter] at ih ⊢
        rw [this]
        simp only [Bool.not_true]
        rw [ih]
        rcases e with ⟨a, b⟩
        simp only at hp
        subst hp
        have haq : a ≠ q := fun h => hq h.symm
        simp [lookupFile, haq]
      · have : (e.1 == p) = false := by simpa using hp
        simp only [eraseKey, List.filter] at ih ⊢
        rw [this]
        simp only [Bool.not_false]
        rcases e with ⟨a, b⟩
        by_cases ha : a = q
        · subst ha
          simp [lookupFile]
        · simp [lookupFile, ha, ih]

/-- After atomic_write, the written path is bound to the freshly appended
buffer, whose bytes are exactly the written data. -/
theorem readBytes_atomic_write_self (store : RAMStore) (p : String)
    (data : List Nat) :
    readBytes (store.atomic_write p data) p = some data := by
  simp [readBytes, RAMStore.atomic_write, lookupFile]

/-- A successful delete leaves the buffer heap untouched. -/
theorem delete_buffers (store store' : RAMStore) (p : String)
    (h : store.delete p = .ok store') : store'.buffers = store.buffers := by
  unfold RAMStore.delete at h
  cases hl : lookupFile store.files p with
  | none => rw [hl] at h; exact absurd h (by simp)
  | some bid =>
      rw [hl] at h
      cases h
      rfl

/-- A successful delete unbinds the deleted path. -/
theorem lookup_delete_self (store store' : RAMStore) (p : String)
    (h : store.delete p = .ok store') : lookupFile store'.files p = none := by
  unfold RAMStore.delete at h
  cases hl : lookupFile store.files p with
  | none => rw [hl] at h; exact absurd h (by simp)
  | some bid =>
      rw [hl] at h
      cases h
      show lookupFile (eraseKey store.files p) p = none
      induction store.files with
      | nil => rfl
      | cons e rest ih =>
          by_cases hp : e.1 = p
          · have : (e.1 == p) = true := by simpa using hp
            simpa [eraseKey, List.filter, this] using ih
          · have : (e.1 == p) = false := by simpa using hp
            simpa [eraseKey, List.filter, this, lookupFile, hp] using ih

/-- A decimal digit character codes 48 plus its value. -/
theorem decChar_toNat (d : Nat) (h : d < 10) : (decChar d).toNat = 48 + d := by
  interval_cases d <;> rfl

/-- A decimal digit character passes the digit test. -/
theorem isDigitChar_decChar (d : Nat) (h : d < 10) :
    isDigitChar (decChar d) = true := by
  interval_cases d <;> rfl

/-- Reading the value back out of a decimal digit character. -/
theorem digitVal_decChar (d : Nat) (h : d < 10) : digitVal (decChar d) = d := by
  interval_cases d <;> rfl

/-- Exhausted or zero inputs leave the rendering accumulator untouched. -/
theorem natCharsGo_zero (fuel : Nat) (acc : List Char) :
    natCharsGo fuel 0 acc = acc := by
  cases fuel <;> simp [natCharsGo]

/-- With enough fuel, the rendering loop produces the base-10 digits of
its input, most significant first, in front of the accumulator. -/
theorem natCharsGo_eq (n : Nat) : ∀ fuel acc, 0 < n → n ≤ fuel →
    natCharsGo fuel n acc = (Nat.digits 10 n).reverse.map decChar ++ acc := by
  induction n using Nat.strong_induction_on with
  | _ n ih =>
      intro fuel acc hn hfuel
      match fuel with
      | 0 => omega
      | fuel + 1 =>
          rw [natCharsGo, if_neg (by omega)]
          rw [Nat.digits_def' (by norm_num : (1:ℕ) < 10) hn]
          simp only [List.reverse_cons, List.map_append, List.map_cons,
            List.map_nil, List.append_assoc, List.singleton_append]
          by_cases h10 : n / 10 = 0
          · rw [h10, natCharsGo_zero]
            simp
          · have hlt : n / 10 < n := Nat.div_lt_self hn (by norm_num)
            rw [ih (n / 10) hlt fuel (decChar (n % 10) :: acc)
              (Nat.pos_of_ne_zero h10) (by omega)]

/-- The decimal rendering of a positive number is the reversed digit
list, mapped to characters. -/
theorem natChars_eq (n : Nat) (hn : 0 < n) :
    natChars n = (Nat.digits 10 n).reverse.map decChar := by
  unfold natChars
  rw [if_neg (by omega)]
  simpa using natCharsGo_eq n n [] hn le_rfl

/-- The digit-consuming loop consumes exactly a rendered digit block when
the following character is not a digit. -/
theorem parseNatAux_append (bs : List Nat) : ∀ (acc : Nat) (rest : List Char),
    (∀ b ∈ bs, b < 10) → (∀ c, rest.head? = some c → isDigitChar c = false) →
    parseNatAux acc (bs.map decChar ++ rest) =
      (bs.foldl (fun a b => 10 * a + b) acc, rest) := by
  induction bs with
  | nil =>
      intro acc rest hb hr
      simp only [List.map_nil, List.nil_append, List.foldl_nil]
      cases rest with
      | nil => rfl
      | cons c cs =>
          have hc := hr c rfl
          simp [parseNatAux, hc]
  | cons b bs ih =>
      intro acc rest hb hr
      have hblt : b < 10 := hb b (by simp)
      simp only [List.map_cons, List.cons_append, parseNatAux,
        isDigitChar_decChar b hblt, if_pos, List.foldl_cons]
      rw [digitVal_decChar b hblt]
      simp only [List.append_eq]
      rw [ih _ rest (fun x hx => hb x (by simp [hx])) hr]

/-- Folding the digit-accumulation step over a reversed digit list
recovers the positional value of that list. -/
theorem foldl_reverse_ofDigits (ds : List Nat) : ∀ a : Nat,
    List.foldl (fun x d => 10 * x + d) a ds.reverse =
      a * 10 ^ ds.length + Nat.ofDigits 10 ds := by
  induction ds with
  | nil => intro a; simp
  | cons d ds ih =>
      intro a
      simp only [List.reverse_cons, List.foldl_append, ih, List.foldl_cons,
        List.foldl_nil, Nat.ofDigits_cons, List.length_cons]
      ring

/-- Parsing a rendered decimal number returns its value and the
remainder, provided the remainder does not begin with a digit. -/
theorem parseNatNum_natChars (n : Nat) (rest : List Char)
    (hr : ∀ c, rest.head? = some c → isDigitChar c = false) :
    parseNatNum (natChars n ++ rest) = some (n, rest) := by
  by_cases hn : n = 0
  · subst hn
    have h0 : natChars 0 = ['0'] := rfl
    rw [h0]
    have h1 : isDigitChar '0' = true := rfl
    simp only [List.cons_append, List.nil_append, parseNatNum, h1, if_pos]
    have := parseNatAux_append [] (digitVal '0') rest (by simp) hr
    simp only [List.map_nil, List.nil_append, List.foldl_nil] at this
    rw [this]
    rfl
  · have hpos : 0 < n := Nat.pos_of_ne_zero hn
    rw [natChars_eq n hpos]
    have hne : Nat.digits 10 n ≠ [] := Nat.digits_ne_nil_iff_ne_zero.mpr hn
    have hmem : ∀ x ∈ (Nat.digits 10 n).reverse, x < 10 := by
      intro x hx
      exact Nat.digits_lt_base (by norm_num) (List.mem_reverse.mp hx)
    obtain ⟨b, bs, hrev⟩ : ∃ b bs, (Nat.digits 10 n).reverse = b :: bs := by
      cases h : (Nat.digits 10 n).reverse with
      | nil =>
          exfalso
          apply hne
          simpa using congrArg List.reverse h
      | cons b bs => exact ⟨b, bs, rfl⟩
    rw [hrev] at hmem
    rw [hrev]
    have hb10 : b < 10 := hmem b (by simp)
    simp only [List.map_cons, List.cons_append, parseNatNum,
      isDigitChar_decChar b hb10, if_pos]
    rw [digitVal_decChar b hb10,
      parseNatAux_append bs b rest (fun x hx => hmem x (by simp [hx])) hr]
    have hfold := foldl_reverse_ofDigits (Nat.digits 10 n) 0
    rw [hrev] at hfold
    simp only [List.foldl_cons, Nat.ofDigits_digits, Nat.zero_mul,
      Nat.zero_add, Nat.mul_zero] at hfold
    rw [hfold]

/-- A literal prefix is consumed exactly. -/
theorem strLit_append (s : List Char) : ∀ rest : List Char,
    strLit s (s ++ rest) = some rest := by
  induction s with
  | nil => intro rest; rfl
  | cons c cs ih => intro rest; simp [strLit, ih]

/-- Every character of a rendered decimal number is a digit. -/
theorem natChars_all_digit (n : Nat) : ∀ c ∈ natChars n, isDigitChar c = true := by
  by_cases hn : n = 0
  · subst hn
    intro c hc
    have h0 : natChars 0 = ['0'] := rfl
    rw [h0, List.mem_singleton] at hc
    subst hc
    rfl
  · rw [natChars_eq n (Nat.pos_of_ne_zero hn)]
    intro c hc
    obtain ⟨x, hx, hcx⟩ := List.mem_map.mp hc
    subst hcx
    exact isDigitChar_decChar x
      (Nat.digits_lt_base (by norm_num) (List.mem_reverse.mp hx))

/-- A rendered decimal number is never empty. -/
theorem natChars_ne_nil (n : Nat) : natChars n ≠ [] := by
  by_cases hn : n = 0
  · subst hn
    simp [natChars]
  · rw [natChars_eq n (Nat.pos_of_ne_zero hn)]
    have hne : Nat.digits 10 n ≠ [] := Nat.digits_ne_nil_iff_ne_zero.mpr hn
    simpa using hne

/-- The tail rendering of the segments array never begins with a digit
(it begins with a comma or the closing bracket). -/
theorem encSegsTail_append_head (ids : List SegmentId) (rest : List Char)
    (c : Char) (h : (encSegsTail ids ++ rest).head? = some c) :
    isDigitChar c = false := by
  cases ids with
  | nil =>
      simp only [encSegsTail, List.cons_append, List.head?_cons,
        Option.some.injEq] at h
      subst h
      rfl
  | cons sid ids =>
      simp only [encSegsTail, List.cons_append, List.head?_cons,
        Option.some.injEq] at h
      subst h
      rfl

/-- The loop over the tail of the segments array consumes exactly a
rendered tail, given enough fuel. -/
theorem parseSegsLoop_enc (ids : List SegmentId) : ∀ (fuel : Nat) (rest : List Char),
    (encSegsTail ids).length ≤ fuel →
    parseSegsLoop fuel (encSegsTail ids ++ rest) = some (ids, rest) := by
  induction ids with
  | nil =>
      intro fuel rest hfuel
      show parseSegsLoop fuel (']' :: rest) = some ([], rest)
      cases fuel <;> rfl
  | cons sid ids ih =>
      intro fuel rest hfuel
      have hlen : (encSegsTail (sid :: ids)).length =
          2 + (natChars sid).length + (encSegsTail ids).length := by
        simp [encSegsTail]
        omega
      match fuel with
      | 0 => omega
      | fuel + 1 =>
          show parseSegsLoop (fuel + 1)
            (',' :: ' ' :: (natChars sid ++ encSegsTail ids) ++ rest) = _
          have harr : (natChars sid ++ encSegsTail ids) ++ rest =
              natChars sid ++ (encSegsTail ids ++ rest) := by
            simp [List.append_assoc]
          have hnum := parseNatNum_natChars sid (encSegsTail ids ++ rest)
            (encSegsTail_append_head ids rest)
          have hrec := ih fuel rest (by omega)
          simp only [parseSegsLoop, List.cons_append, List.append_eq]
          rw [harr]
          simp only [hnum, hrec]

/-- Parsing the rendered inside of the segments array returns the ids and
the remainder. -/
theorem parseSegsInner_enc (ids : List SegmentId) (rest : List Char) :
    parseSegsInner (encSegsInner ids ++ rest) = some (ids, rest) := by
  cases ids with
  | nil =>
      show parseSegsInner (']' :: rest) = some ([], rest)
      rfl
  | cons sid ids =>
      obtain ⟨c, cs, hc⟩ := List.exists_cons_of_ne_nil (natChars_ne_nil sid)
      have hdig : isDigitChar c = true :=
        natChars_all_digit sid c (by rw [hc]; exact List.mem_cons_self c cs)
      have harr : encSegsInner (sid :: ids) ++ rest =
          natChars sid ++ (encSegsTail ids ++ rest) := by
        show (natChars sid ++ encSegsTail ids) ++ rest = _
        simp [List.append_assoc]
      have hne : ¬ ((encSegsInner (sid :: ids) ++ rest).head? = some ']') := by
        rw [harr, hc]
        simp only [List.cons_append, List.head?_cons, Option.some.injEq]
        intro h
        rw [h] at hdig
        exact absurd hdig (by decide)
      unfold parseSegsInner
      rw [if_neg hne, harr,
        parseNatNum_natChars sid _ (encSegsTail_append_head ids rest)]
      have hloop := parseSegsLoop_enc ids (encSegsTail ids ++ rest).length rest
        (by simp)
      simp only [hloop]

/-- Decoding a rendered meta document recovers the meta record exactly:
the serialization layer of save_metas and load_metas round-trips. -/
theorem decodeMeta_encodeMeta (m : IndexMeta) :
    decodeMeta (encodeMeta m) = some m := by
  have h1 : encodeMeta m = (lbrace :: "\"segments\": [".data) ++
      (encSegsInner m.segments ++ (", \"schema\": ".data ++ (natChars m.schema ++
        (", \"docstamp\": ".data ++ (natChars m.docstamp ++ [rbrace, '\n']))))) := by
    simp [encodeMeta]
  have e1 : strLit (lbrace :: "\"segments\": [".data) (encodeMeta m) =
      some (encSegsInner m.segments ++ (", \"schema\": ".data ++ (natChars m.schema ++
        (", \"docstamp\": ".data ++ (natChars m.docstamp ++ [rbrace, '\n']))))) := by
    rw [h1]
    exact strLit_append _ _
  have e2 := parseSegsInner_enc m.segments (", \"schema\": ".data ++
    (natChars m.schema ++ (", \"docstamp\": ".data ++
      (natChars m.docstamp ++ [rbrace, '\n']))))
  have e3 := strLit_append ", \"schema\": ".data (natChars m.schema ++
    (", \"docstamp\": ".data ++ (natChars m.docstamp ++ [rbrace, '\n'])))
  have e4 : parseNatNum (natChars m.schema ++ (", \"docstamp\": ".data ++
      (natChars m.docstamp ++ [rbrace, '\n']))) =
      some (m.schema, ", \"docstamp\": ".data ++
        (natChars m.docstamp ++ [rbrace, '\n'])) := by
    apply parseNatNum_natChars
    intro c h
    have hh : ((", \"docstamp\": ".data ++
        (natChars m.docstamp ++ [rbrace, '\n'])).head?) = some ',' := rfl
    rw [hh] at h
    have hc : c = ',' := (Option.some.inj h).symm
    subst hc
    rfl
  have e5 := strLit_append ", \"docstamp\": ".data
    (natChars m.docstamp ++ [rbrace, '\n'])
  have e6 : parseNatNum (natChars m.docstamp ++ [rbrace, '\n']) =
      some (m.docstamp, [rbrace, '\n']) := by
    apply parseNatNum_natChars
    intro c h
    have hh : (([rbrace, '\n'] : List Char).head?) = some rbrace := rfl
    rw [hh] at h
    have hc : c = rbrace := (Option.some.inj h).symm
    subst hc
    rfl
  have e7 : strLit [rbrace] [rbrace, '\n'] = some ['\n'] := rfl
  simp only [decodeMeta, e1, e2, e3, e4, e5, e6, e7]
  rfl

/-- On pure ASCII inputs the lossy UTF-8 decoding loop decodes each byte
to its own character. -/
theorem utf8Go_ascii : ∀ (bs : List Nat) (fuel : Nat), bs.length ≤ fuel →
    (∀ b ∈ bs, b < 128) → utf8Go fuel bs = bs.map Char.ofNat := by
  intro bs
  induction bs with
  | nil => intro fuel _ _; cases fuel <;> rfl
  | cons b rest ih =>
      intro fuel hfuel hb
      match fuel with
      | 0 => simp at hfuel
      | fuel + 1 =>
          have hblt : b < 128 := hb b (by simp)
          have hlen : rest.length ≤ fuel := by
            simp only [List.length_cons] at hfuel
            omega
          show (if b < 128 then Char.ofNat b :: utf8Go fuel rest else _) = _
          rw [if_pos hblt, ih fuel hlen (fun x hx => hb x (by simp [hx]))]
          rfl

/-- String::from_utf8_lossy is the identity (up to character coding) on
ASCII byte sequences. -/
theorem utf8Lossy_ascii (bs : List Nat) (hb : ∀ b ∈ bs, b < 128) :
    utf8Lossy bs = bs.map Char.ofNat :=
  utf8Go_ascii bs bs.length le_rfl hb

/-- A digit character is ASCII. -/
theorem digit_toNat_lt (c : Char) (h : isDigitChar c = true) : c.toNat < 128 := by
  simp only [isDigitChar, Bool.and_eq_true, decide_eq_true_eq] at h
  omega

/-- Every character of a rendered decimal number is ASCII. -/
theorem natChars_ascii (n : Nat) : ∀ c ∈ natChars n, c.toNat < 128 :=
  fun c hc => digit_toNat_lt c (natChars_all_digit n c hc)

/-- Every character of a rendered segments-array tail is ASCII. -/
theorem encSegsTail_ascii (ids : List SegmentId) :
    ∀ c ∈ encSegsTail ids, c.toNat < 128 := by
  induction ids with
  | nil => intro c hc; simp only [encSegsTail, List.mem_singleton] at hc; subst hc; decide
  | cons sid ids ih =>
      intro c hc
      simp only [encSegsTail, List.mem_cons, List.mem_append] at hc
      rcases hc with h | h | h | h
      · subst h; decide
      · subst h; decide
      · exact natChars_ascii sid c h
      · exact ih c h

/-- Every character of the rendered inside of the segments array is
ASCII. -/
theorem encSegsInner_ascii (ids : List SegmentId) :
    ∀ c ∈ encSegsInner ids, c.toNat < 128 := by
  cases ids with
  | nil => intro c hc; simp only [encSegsInner, List.mem_singleton] at hc; subst hc; decide
  | cons sid ids =>
      intro c hc
      simp only [encSegsInner, List.mem_append] at hc
      rcases hc with h | h
      · exact natChars_ascii sid c h
      · exact encSegsTail_ascii ids c h

/-- Every character of a rendered meta document is ASCII. -/
theorem encodeMeta_ascii (m : IndexMeta) : ∀ c ∈ encodeMeta m, c.toNat < 128 := by
  intro c hc
  have h1 : encodeMeta m = (lbrace :: "\"segments\": [".data) ++
      (encSegsInner m.segments ++ (", \"schema\": ".data ++ (natChars m.schema ++
        (", \"docstamp\": ".data ++ (natChars m.docstamp ++ [rbrace, '\n']))))) := by
    simp [encodeMeta]
  rw [h1] at hc
  rcases List.mem_append.mp hc with h | h
  · exact (by decide : ∀ x ∈ lbrace :: "\"segments\": [".data, Char.toNat x < 128) c h
  · rcases List.mem_append.mp h with h | h
    · exact encSegsInner_ascii m.segments c h
    · rcases List.mem_append.mp h with h | h
      · exact (by decide : ∀ x ∈ ", \"schema\": ".data, Char.toNat x < 128) c h
      · rcases List.mem_append.mp h with h | h
        · exact natChars_ascii m.schema c h
        · rcases List.mem_append.mp h with h | h
          · exact (by decide : ∀ x ∈ ", \"docstamp\": ".data, Char.toNat x < 128) c h
          · rcases List.mem_append.mp h with h | h
            · exact natChars_ascii m.docstamp c h
            · exact (by decide : ∀ x ∈ ([rbrace, '\n'] : List Char),
                Char.toNat x < 128) c h

/-- Serializing a meta to bytes and converting back through lossy UTF-8
decoding recovers the rendered text unchanged. -/
theorem utf8Lossy_encodeMeta (m : IndexMeta) :
    utf8Lossy ((encodeMeta m).map Char.toNat) = encodeMeta m := by
  rw [utf8Lossy_ascii ((encodeMeta m).map Char.toNat)
    (by
      intro b hb
      obtain ⟨c, hc, hcb⟩ := List.mem_map.mp hb
      subst hcb
      exact encodeMeta_ascii m c hc)]
  rw [List.map_map]
  have : (Char.ofNat ∘ Char.toNat) = id := by
    funext c
    exact Char.ofNat_toNat c
  rw [this, List.map_id]

/-- Reading meta.json back right after save_metas wrote it yields exactly
the saved meta record. -/
theorem load_metas_atomic_write (store : RAMStore) (m : IndexMeta) :
    load_metas (store.atomic_write META_FILEPATH ((encodeMeta m).map Char.toNat)) =
      .ok m := by
  unfold load_metas
  simp only [readBytes_atomic_write_self, utf8Lossy_encodeMeta,
    decodeMeta_encodeMeta]

/-- When the filesystem accepts the write, save_metas rebinds meta.json
to the rendered meta bytes and reports success. -/
theorem save_metas_ok (env : Env) (idx : Index) (h : env.writeOk = true) :
    save_metas env idx =
      (.ok (), { idx with store := idx.store.atomic_write META_FILEPATH ((encodeMeta idx.metas).map Char.toNat) }) := by
  simp [save_metas, h]

/-- When the filesystem rejects the write, save_metas reports an I/O
error and the whole index, its store included, is untouched. -/
theorem save_metas_fail (env : Env) (idx : Index) (h : env.writeOk = false) :
    save_metas env idx = (.error .ioError, idx) := by
  simp [save_metas, h]

/-- When every current segment opens, load_searchers publishes one new
generation of NUM_SEARCHERS identical searchers over the current segment
list. -/
theorem load_searchers_ok (env : Env) (idx : Index)
    (h : ∀ sid ∈ idx.metas.segments, env.openOk sid = true) :
    load_searchers env idx =
      (.ok (), { idx with pool := { generation := idx.pool.generation + 1, queue := List.replicate NUM_SEARCHERS idx.metas.segments } }) := by
  have hf : idx.metas.segments.find? (fun sid => !env.openOk sid) = none :=
    List.find?_eq_none.mpr (fun x hx => by simp [h x hx])
  simp [load_searchers, hf]

/-- When some current segment fails to open, load_searchers returns that
failure and the whole index, its pool included, is untouched. -/
theorem load_searchers_fail (env : Env) (idx : Index) (sid : SegmentId)
    (h : idx.metas.segments.find? (fun s => !env.openOk s) = some sid) :
    load_searchers env idx = (.error (.segmentOpenError sid), idx) := by
  simp [load_searchers, h]

/-- The save-then-reload chain of the publication operations, on an
accepted write with all segments openable: it succeeds, writes the
rendered meta and installs one fresh searcher generation. -/
theorem publish_chain_ok (env : Env) (j : Index)
    (hw : env.writeOk = true)
    (hall : ∀ s ∈ j.metas.segments, env.openOk s = true) :
    (match save_metas env j with
      | (.error e, j2) => ((.error e : Except IndexError Unit), j2)
      | (.ok _, j2) =>
          match load_searchers env j2 with
          | (.error e, j3) => ((.error e : Except IndexError Unit), j3)
          | (.ok _, j3) => (.ok (), j3)) =
      (.ok (), { metas := j.metas,
                 store := j.store.atomic_write META_FILEPATH ((encodeMeta j.metas).map Char.toNat),
                 schema := j.schema,
                 pool := { generation := j.pool.generation + 1, queue := List.replicate NUM_SEARCHERS j.metas.segments } }) := by
  have h1 := save_metas_ok env j hw
  have h2 := load_searchers_ok env
    { j with store := j.store.atomic_write META_FILEPATH ((encodeMeta j.metas).map Char.toNat) }
    (by intro sid hs; exact hall sid hs)
  simp only [h1, h2]

/-- A publish_segments whose write is accepted and whose new segment set
is fully openable succeeds and returns the fully updated index. -/
theorem publish_segments_eq_ok (env : Env) (idx : Index) (ids : List SegmentId)
    (d : Nat) (hw : env.writeOk = true)
    (hall : ∀ s ∈ idx.metas.segments ++ ids, env.openOk s = true) :
    publish_segments env idx ids d =
      (.ok (), { metas := { segments := idx.metas.segments ++ ids, schema := idx.metas.schema, docstamp := d },
                 store := idx.store.atomic_write META_FILEPATH ((encodeMeta { segments := idx.metas.segments ++ ids, schema := idx.metas.schema, docstamp := d }).map Char.toNat),
                 schema := idx.schema,
                 pool := { generation := idx.pool.generation + 1, queue := List.replicate NUM_SEARCHERS (idx.metas.segments ++ ids) } }) := by
  have h := publish_chain_ok env
    { idx with metas := { idx.metas with segments := idx.metas.segments ++ ids, docstamp := d } }
    hw (by intro s hs; exact hall s hs)
  exact h

/-- A publish_merge_segment whose write is accepted and whose new segment
set is fully openable succeeds and returns the fully updated index. -/
theorem publish_merge_segment_eq_ok (env : Env) (idx : Index)
    (ms : List SegmentId) (rid : SegmentId) (hw : env.writeOk = true)
    (hall : ∀ s ∈ idx.metas.segments.filter (fun x => !ms.contains x) ++ [rid], env.openOk s = true) :
    publish_merge_segment env idx ms rid =
      (.ok (), { metas := { segments := idx.metas.segments.filter (fun x => !ms.contains x) ++ [rid], schema := idx.metas.schema, docstamp := idx.metas.docstamp },
                 store := idx.store.atomic_write META_FILEPATH ((encodeMeta { segments := idx.metas.segments.filter (fun x => !ms.contains x) ++ [rid], schema := idx.metas.schema, docstamp := idx.metas.docstamp }).map Char.toNat),
                 schema := idx.schema,
                 pool := { generation := idx.pool.generation + 1, queue := List.replicate NUM_SEARCHERS (idx.metas.segments.filter (fun x => !ms.contains x) ++ [rid]) } }) := by
  have h := publish_chain_ok env
    { idx with metas := { idx.metas with segments := idx.metas.segments.filter (fun x => !ms.contains x) ++ [rid] } }
    hw (by intro s hs; exact hall s hs)
  exact h

/-- A publish_segments whose write is rejected fails with an I/O error,
leaving the store and pool untouched but the in-memory meta updated. -/
theorem publish_segments_eq_fail (env : Env) (idx : Index)
    (ids : List SegmentId) (d : Nat) (hw : env.writeOk = false) :
    publish_segments env idx ids d =
      (.error .ioError, { idx with metas := { segments := idx.metas.segments ++ ids, schema := idx.metas.schema, docstamp := d } }) := by
  unfold publish_segments
  simp only [save_metas_fail env _ hw]

/-- A publish_merge_segment whose write is rejected fails with an I/O
error, leaving the store and pool untouched but the in-memory meta
updated. -/
theorem publish_merge_segment_eq_fail (env : Env) (idx : Index)
    (ms : List SegmentId) (rid : SegmentId) (hw : env.writeOk = false) :
    publish_merge_segment env idx ms rid =
      (.error .ioError, { idx with metas := { segments := idx.metas.segments.filter (fun x => !ms.contains x) ++ [rid], schema := idx.metas.schema, docstamp := idx.metas.docstamp } }) := by
  unfold publish_merge_segment
  simp only [save_metas_fail env _ hw]

/-- load_metas on a directory with no meta.json: DoesNotExist. -/
theorem load_metas_none (store : RAMStore)
    (h : readBytes store META_FILEPATH = none) :
    load_metas store = .error (.doesNotExist META_FILEPATH) := by
  simp [load_metas, h]

/-- load_metas on a parseable meta.json: the decoded meta. -/
theorem load_metas_some_ok (store : RAMStore) (bytes : List Nat) (m : IndexMeta)
    (h : readBytes store META_FILEPATH = some bytes)
    (hd : decodeMeta (utf8Lossy bytes) = some m) :
    load_metas store = .ok m := by
  simp [load_metas, h, hd]

/-- load_metas on an unparseable meta.json: CorruptedFile. -/
theorem load_metas_some_fail (store : RAMStore) (bytes : List Nat)
    (h : readBytes store META_FILEPATH = some bytes)
    (hd : decodeMeta (utf8Lossy bytes) = none) :
    load_metas store = .error (.corruptedFile META_FILEPATH) := by
  simp [load_metas, h, hd]

/-- create_from_metas fails exactly like its load_searchers call, leaving
no index behind. -/
theorem create_from_metas_fail (env : Env) (store : RAMStore) (m : IndexMeta)
    (sid : SegmentId) (h : m.segments.find? (fun s => !env.openOk s) = some sid) :
    create_from_metas env store m = .error (.segmentOpenError sid) := by
  unfold create_from_metas
  simp only [load_searchers_fail env
    { metas := m, store := store, schema := m.schema, pool := Pool.new } sid h]

/-- create_from_metas succeeds when all segments open, installing the
first searcher generation. -/
theorem create_from_metas_ok (env : Env) (store : RAMStore) (m : IndexMeta)
    (hall : ∀ sid ∈ m.segments, env.openOk sid = true) :
    create_from_metas env store m =
      .ok { metas := m, store := store, schema := m.schema,
            pool := { generation := 1, queue := List.replicate NUM_SEARCHERS m.segments } } := by
  unfold create_from_metas
  simp only [load_searchers_ok env
    { metas := m, store := store, schema := m.schema, pool := Pool.new } hall]
  rfl

/-- Index::open succeeds on a loadable meta whose segments all open. -/
theorem openIndex_eq_ok (env : Env) (store : RAMStore) (m : IndexMeta)
    (hm : load_metas store = .ok m)
    (hall : ∀ sid ∈ m.segments, env.openOk sid = true) :
    openIndex env store =
      .ok { metas := m, store := store, schema := m.schema,
            pool := { generation := 1, queue := List.replicate NUM_SEARCHERS m.segments } } := by
  unfold openIndex
  simp only [hm]
  exact create_from_metas_ok env store m hall

/-- Index::open propagates a meta-loading error unchanged. -/
theorem openIndex_err_load (env : Env) (store : RAMStore) (e : IndexError)
    (h : load_metas store = .error e) : openIndex env store = .error e := by
  unfold openIndex
  simp only [h]

/-- Side condition on a trace: every publish_segments call supplies a
docstamp at least the docstamp current at that point (the code itself
does not check this). -/
def docstampOk : Env → Index → List Op → Bool
  | _, _, [] => true
  | env, idx, .publish ids d :: ops =>
      decide (idx.metas.docstamp ≤ d)
        && docstampOk env (publish_segments env idx ids d).2 ops
  | env, idx, .merge ms rid :: ops =>
      docstampOk env (publish_merge_segment env idx ms rid).2 ops

/-- Side condition on a trace: every publish supplies pairwise-distinct
ids not already present, and every merge result id is not among the
segments the merge retains (the code itself does not check this). -/
def nodupOk : Env → Index → List Op → Bool
  | _, _, [] => true
  | env, idx, .publish ids d :: ops =>
      decide ids.Nodup && decide (∀ x ∈ ids, x ∉ idx.metas.segments)
        && nodupOk env (publish_segments env idx ids d).2 ops
  | env, idx, .merge ms rid :: ops =>
      decide (rid ∉ idx.metas.segments.filter (fun x => !ms.contains x))
        && nodupOk env (publish_merge_segment env idx ms rid).2 ops

/-- Along any trace whose publishes never supply a smaller docstamp, the
docstamp never decreases: publish_segments sets it to the supplied value
and publish_merge_segment leaves it unchanged. -/
theorem docstamp_mono (env : Env) : ∀ (ops : List Op) (idx : Index),
    docstampOk env idx ops = true →
    idx.metas.docstamp ≤ (runOps env idx ops).metas.docstamp := by
  intro ops
  induction ops with
  | nil => intro idx _; simp [runOps]
  | cons op ops ih =>
      intro idx h
      cases op with
      | publish ids d =>
          rw [docstampOk, Bool.and_eq_true, decide_eq_true_eq] at h
          obtain ⟨h1, h2⟩ := h
          have hrec := ih (publish_segments env idx ids d).2 h2
          have hd : ((publish_segments env idx ids d).2).metas.docstamp = d := by
            rw [publish_segments_metas]
          have hrun : runOps env idx (Op.publish ids d :: ops) =
              runOps env (publish_segments env idx ids d).2 ops := rfl
          rw [hrun]
          omega
      | merge ms rid =>
          rw [docstampOk] at h
          have hrec := ih (publish_merge_segment env idx ms rid).2 h
          have hd : ((publish_merge_segment env idx ms rid).2).metas.docstamp =
              idx.metas.docstamp := by
            rw [publish_merge_segment_metas]
          have hrun : runOps env idx (Op.merge ms rid :: ops) =
              runOps env (publish_merge_segment env idx ms rid).2 ops := rfl
          rw [hrun]
          omega

/-- Along any trace whose publishes supply fresh, pairwise-distinct ids
and whose merges supply a result id not among the retained segments, the
no-duplicates invariant of the segment list is preserved. -/
theorem nodup_preserved (env : Env) : ∀ (ops : List Op) (idx : Index),
    idx.metas.segments.Nodup → nodupOk env idx ops = true →
    (runOps env idx ops).metas.segments.Nodup := by
  intro ops
  induction ops with
  | nil => intro idx h _; simpa [runOps] using h
  | cons op ops ih =>
      intro idx hnd h
      cases op with
      | publish ids d =>
          rw [nodupOk, Bool.and_eq_true, Bool.and_eq_true,
            decide_eq_true_eq, decide_eq_true_eq] at h
          obtain ⟨⟨h1, h2⟩, h3⟩ := h
          have hseg : ((publish_segments env idx ids d).2).metas.segments =
              idx.metas.segments ++ ids := by
            rw [publish_segments_metas]
          have hnd2 : ((publish_segments env idx ids d).2).metas.segments.Nodup := by
            rw [hseg, List.nodup_append]
            exact ⟨hnd, h1, fun a ha hb => h2 a hb ha⟩
          have hrun : runOps env idx (Op.publish ids d :: ops) =
              runOps env (publish_segments env idx ids d).2 ops := rfl
          rw [hrun]
          exact ih _ hnd2 h3
      | merge ms rid =>
          rw [nodupOk, Bool.and_eq_true, decide_eq_true_eq] at h
          obtain ⟨h1, h2⟩ := h
          have hseg : ((publish_merge_segment env idx ms rid).2).metas.segments =
              idx.metas.segments.filter (fun x => !ms.contains x) ++ [rid] := by
            rw [publish_merge_segment_metas]
          have hnd2 : ((publish_merge_segment env idx ms rid).2).metas.segments.Nodup := by
            rw [hseg]
            have hiff : (idx.metas.segments.filter (fun x => !ms.contains x)
                ++ [rid]).Nodup ↔
                (idx.metas.segments.filter (fun x => !ms.contains x)).Nodup ∧
                rid ∉ idx.metas.segments.filter (fun x => !ms.contains x) := by
              simp [List.nodup_append]
            exact hiff.mpr ⟨hnd.filter _, h1⟩
          have hrun : runOps env idx (Op.merge ms rid :: ops) =
              runOps env (publish_merge_segment env idx ms rid).2 ops := rfl
          rw [hrun]
          exact ih _ hnd2 h2

/-- A fully permissive environment: writes accepted, all segments open. -/
def envAll : Env := { writeOk := true, openOk := fun _ => true }

/-- A fresh index over an empty store, as create_in_ram builds it. -/
def idx0 : Index :=
  { metas := IndexMeta.with_schema 0, store := RAMStore.empty,
    schema := 0, pool := Pool.new }

/-- The save-then-reload chain when the write is accepted but a segment
fails to open: the store keeps the new meta bytes, the pool is untouched,
and the segment-open error is returned. -/
theorem publish_chain_openfail (env : Env) (j : Index) (sid : SegmentId)
    (hw : env.writeOk = true)
    (hf : j.metas.segments.find? (fun s => !env.openOk s) = some sid) :
    (match save_metas env j with
      | (.error e, j2) => ((.error e : Except IndexError Unit), j2)
      | (.ok _, j2) =>
          match load_searchers env j2 with
          | (.error e, j3) => ((.error e : Except IndexError Unit), j3)
          | (.ok _, j3) => (.ok (), j3)) =
      (.error (.segmentOpenError sid),
        { j with store := j.store.atomic_write META_FILEPATH ((encodeMeta j.metas).map Char.toNat) }) := by
  have h1 := save_metas_ok env j hw
  have h2 := load_searchers_fail env
    { j with store := j.store.atomic_write META_FILEPATH ((encodeMeta j.metas).map Char.toNat) }
    sid hf
  simp only [h1, h2]

/-- A publish_segments whose write is accepted but whose new segment set
has an unopenable segment returns that segment's error; the meta is
updated in memory and on disk but no new searcher generation exists. -/
theorem publish_segments_eq_openfail (env : Env) (idx : Index)
    (ids : List SegmentId) (d : Nat) (sid : SegmentId) (hw : env.writeOk = true)
    (hf : (idx.metas.segments ++ ids).find? (fun s => !env.openOk s) = some sid) :
    publish_segments env idx ids d =
      (.error (.segmentOpenError sid),
        { metas := { segments := idx.metas.segments ++ ids, schema := idx.metas.schema, docstamp := d },
          store := idx.store.atomic_write META_FILEPATH ((encodeMeta { segments := idx.metas.segments ++ ids, schema := idx.metas.schema, docstamp := d }).map Char.toNat),
          schema := idx.schema, pool := idx.pool }) := by
  have h := publish_chain_openfail env
    { idx with metas := { idx.metas with segments := idx.metas.segments ++ ids, docstamp := d } }
    sid hw hf
  exact h

/-- C1: for every index state, ids and docstamp, a successful
publish_segments(ids, d) leaves the meta segments equal to the old
sequence with ids appended in order, the docstamp equal to d, and the
remaining meta field (the schema) unchanged. -/
theorem C1_publish_segments_meta (env : Env) (idx idx' : Index)
    (ids : List SegmentId) (d : Nat) (u : Unit)
    (h : publish_segments env idx ids d = (.ok u, idx')) :
    idx'.metas.segments = idx.metas.segments ++ ids ∧
    idx'.metas.docstamp = d ∧
    idx'.metas.schema = idx.metas.schema := by
  have h2 : idx' = (publish_segments env idx ids d).2 := by rw [h]
  rw [h2, publish_segments_metas]
  exact ⟨rfl, rfl, rfl⟩

/-- Witness for C1 at a concrete index and publication. -/
theorem C1_witness :
    ((publish_segments envAll idx0 [1, 2] 5).2).metas.segments =
      idx0.metas.segments ++ [1, 2] ∧
    ((publish_segments envAll idx0 [1, 2] 5).2).metas.docstamp = 5 ∧
    ((publish_segments envAll idx0 [1, 2] 5).2).metas.schema = idx0.metas.schema :=
  C1_publish_segments_meta envAll idx0 (publish_segments envAll idx0 [1, 2] 5).2
    [1, 2] 5 () (by rfl)

/-- C2: for every index state, merged set and result id, a successful
publish_merge_segment leaves the meta segments equal to the old sequence
with every merged member removed, the remaining order preserved (a
filter of the old sequence) and the result id at the end; the docstamp
and schema are unchanged. -/
theorem C2_publish_merge_meta (env : Env) (idx idx' : Index)
    (ms : List SegmentId) (rid : SegmentId) (u : Unit)
    (h : publish_merge_segment env idx ms rid = (.ok u, idx')) :
    idx'.metas.segments =
      idx.metas.segments.filter (fun s => !ms.contains s) ++ [rid] ∧
    idx'.metas.docstamp = idx.metas.docstamp ∧
    idx'.metas.schema = idx.metas.schema := by
  have h2 : idx' = (publish_merge_segment env idx ms rid).2 := by rw [h]
  rw [h2, publish_merge_segment_metas]
  exact ⟨rfl, rfl, rfl⟩

/-- Witness for C2: publish segments 1, 2, 3, then merge the set
containing 1 and 3 into 9; the segment list becomes 2 then 9 and the
docstamp is unchanged by the merge (the spec scenario). -/
theorem C2_witness :
    ((publish_merge_segment envAll (publish_segments envAll idx0 [1, 2, 3] 100).2 [1, 3] 9).2).metas.segments = [2, 9] ∧
    ((publish_merge_segment envAll (publish_segments envAll idx0 [1, 2, 3] 100).2 [1, 3] 9).2).metas.docstamp = 100 := by
  have h := C2_publish_merge_meta envAll (publish_segments envAll idx0 [1, 2, 3] 100).2
    (publish_merge_segment envAll (publish_segments envAll idx0 [1, 2, 3] 100).2 [1, 3] 9).2
    [1, 3] 9 () (by rfl)
  refine ⟨?_, ?_⟩
  · rw [h.1]
    rfl
  · rw [h.2.1]
    rfl

/-- A publication environment whose atomic_write fails. -/
def envFail : Env := { writeOk := false, openOk := fun _ => true }

/-- C4 counterexample: publish_segments does not check the supplied
docstamp against the current one, so two successful publications can
make the docstamp regress from 5 to 3. -/
theorem C4_counterexample :
    (publish_segments envAll idx0 [] 5).1 = .ok () ∧
    (publish_segments envAll (publish_segments envAll idx0 [] 5).2 [] 3).1 = .ok () ∧
    ((publish_segments envAll idx0 [] 5).2).metas.docstamp = 5 ∧
    ((publish_segments envAll (publish_segments envAll idx0 [] 5).2 [] 3).2).metas.docstamp = 3 ∧
    ¬ (5 ≤ 3) :=
  ⟨rfl, rfl, rfl, rfl, by decide⟩

/-- C4 (amended): publish_segments sets the docstamp to its argument
without checking it, and publish_merge_segment leaves it unchanged, so
across any trace of publications the docstamp is non-decreasing provided
every publish_segments call supplies a docstamp at least the current
one. -/
theorem C4_docstamp_monotone (env : Env) (ops : List Op) (idx : Index)
    (h : docstampOk env idx ops = true) :
    idx.metas.docstamp ≤ (runOps env idx ops).metas.docstamp :=
  docstamp_mono env ops idx h

/-- Witness for the amended C4 on a concrete three-step trace. -/
theorem C4_witness :
    docstampOk envAll idx0 [Op.publish [1] 3, Op.merge [1] 2, Op.publish [5] 7] = true ∧
    idx0.metas.docstamp ≤
      (runOps envAll idx0 [Op.publish [1] 3, Op.merge [1] 2, Op.publish [5] 7]).metas.docstamp :=
  ⟨by rfl, C4_docstamp_monotone envAll
    [Op.publish [1] 3, Op.merge [1] 2, Op.publish [5] 7] idx0 (by rfl)⟩

/-- C5 counterexample: publish_segments appends its ids without any
duplicate check, so publishing the id 7 twice in one call succeeds and
leaves a duplicated segment list. -/
theorem C5_counterexample :
    (publish_segments envAll idx0 [7, 7] 1).1 = .ok () ∧
    ((publish_segments envAll idx0 [7, 7] 1).2).metas.segments = [7, 7] ∧
    ¬ ((publish_segments envAll idx0 [7, 7] 1).2).metas.segments.Nodup :=
  ⟨rfl, rfl, by decide⟩

/-- C5 (amended): neither operation checks for duplicates, so the
no-duplicates invariant is preserved along a trace only under the caller
discipline that published ids are pairwise distinct and fresh, and each
merge result id is not among the retained segments. -/
theorem C5_segments_nodup (env : Env) (ops : List Op) (idx : Index)
    (h1 : idx.metas.segments.Nodup) (h2 : nodupOk env idx ops = true) :
    (runOps env idx ops).metas.segments.Nodup :=
  nodup_preserved env ops idx h1 h2

/-- Witness for the amended C5 on a concrete three-step trace. -/
theorem C5_witness :
    nodupOk envAll idx0 [Op.publish [1, 2] 1, Op.merge [1] 3, Op.publish [4] 2] = true ∧
    (runOps envAll idx0 [Op.publish [1, 2] 1, Op.merge [1] 3, Op.publish [4] 2]).metas.segments.Nodup :=
  ⟨by rfl, C5_segments_nodup envAll
    [Op.publish [1, 2] 1, Op.merge [1] 3, Op.publish [4] 2] idx0 (by decide) (by rfl)⟩

/-- C9: when the atomic meta write fails, both publication operations
return the I/O error with the on-disk store (and pool) untouched while
the in-memory meta keeps the already-applied update; with nonempty ids
the in-memory segment list therefore differs from its pre-publication
(and persisted) value. -/
theorem C9_publish_failure_keeps_memory (env : Env) (idx : Index)
    (ids : List SegmentId) (d : Nat) (ms : List SegmentId) (rid : SegmentId)
    (h : env.writeOk = false) :
    publish_segments env idx ids d =
      (.error .ioError, { idx with metas := { segments := idx.metas.segments ++ ids, schema := idx.metas.schema, docstamp := d } }) ∧
    publish_merge_segment env idx ms rid =
      (.error .ioError, { idx with metas := { segments := idx.metas.segments.filter (fun x => !ms.contains x) ++ [rid], schema := idx.metas.schema, docstamp := idx.metas.docstamp } }) ∧
    (ids ≠ [] →
      ((publish_segments env idx ids d).2).metas.segments ≠ idx.metas.segments) := by
  refine ⟨publish_segments_eq_fail env idx ids d h,
    publish_merge_segment_eq_fail env idx ms rid h, ?_⟩
  intro hne heq
  have hs : ((publish_segments env idx ids d).2).metas.segments =
      idx.metas.segments ++ ids := by
    rw [publish_segments_metas]
  rw [hs] at heq
  have hlen := congrArg List.length heq
  simp only [List.length_append] at hlen
  exact hne (List.eq_nil_of_length_eq_zero (by omega))

/-- Witness for C9 at a concrete failing write. -/
theorem C9_witness :
    publish_segments envFail idx0 [4] 2 =
      (.error .ioError, { idx0 with metas := { segments := idx0.metas.segments ++ [4], schema := idx0.metas.schema, docstamp := 2 } }) ∧
    publish_merge_segment envFail idx0 [1] 6 =
      (.error .ioError, { idx0 with metas := { segments := idx0.metas.segments.filter (fun x => !([1].contains x)) ++ [6], schema := idx0.metas.schema, docstamp := idx0.metas.docstamp } }) ∧
    ((publish_segments envFail idx0 [4] 2).2).metas.segments ≠ idx0.metas.segments :=
  ⟨(C9_publish_failure_keeps_memory envFail idx0 [4] 2 [1] 6 rfl).1,
   (C9_publish_failure_keeps_memory envFail idx0 [4] 2 [1] 6 rfl).2.1,
   (C9_publish_failure_keeps_memory envFail idx0 [4] 2 [1] 6 rfl).2.2 (by decide)⟩

/-- An environment in which segment 2 cannot be opened. -/
def envNo2 : Env := { writeOk := true, openOk := fun s => !(s == 2) }

/-- An index whose meta lists segments 1 and 2. -/
def idx12 : Index :=
  { metas := { segments := [1, 2], schema := 0, docstamp := 0 },
    store := RAMStore.empty, schema := 0, pool := Pool.new }

/-- C6: load_searchers builds exactly NUM_SEARCHERS = 12 searchers over
the current segment set and publishes them as one new pool generation;
if some segment reader fails to open, the error is returned and the
index, its pool included, is left untouched. -/
theorem C6_load_searchers_spec (env : Env) (idx : Index) :
    ((∀ sid ∈ idx.metas.segments, env.openOk sid = true) →
      load_searchers env idx =
        (.ok (), { idx with pool := { generation := idx.pool.generation + 1, queue := List.replicate NUM_SEARCHERS idx.metas.segments } })) ∧
    (∀ sid, idx.metas.segments.find? (fun s => !env.openOk s) = some sid →
      load_searchers env idx = (.error (.segmentOpenError sid), idx)) ∧
    NUM_SEARCHERS = 12 :=
  ⟨fun h => load_searchers_ok env idx h,
   fun sid h => load_searchers_fail env idx sid h,
   rfl⟩

/-- Witness for C6: a successful refresh over segments 1 and 2, and a
failing refresh that leaves the index untouched when segment 2 cannot be
opened. -/
theorem C6_witness :
    load_searchers envAll idx12 =
      (.ok (), { idx12 with pool := { generation := idx12.pool.generation + 1, queue := List.replicate NUM_SEARCHERS idx12.metas.segments } }) ∧
    load_searchers envNo2 idx12 = (.error (.segmentOpenError 2), idx12) :=
  ⟨(C6_load_searchers_spec envAll idx12).1 (by decide),
   (C6_load_searchers_spec envNo2 idx12).2.1 2 (by rfl)⟩

/-- C8: a ReadOnlySource obtained by open_read keeps yielding exactly its
original bytes after any later delete on the directory, and deleting the
source's own path makes a fresh open_read fail while the old source is
unaffected. -/
theorem C8_source_survives_delete (store store' : RAMStore) (p q : String)
    (bid : Nat) (bytes : List Nat)
    (h1 : store.open_read p = .ok bid)
    (h2 : readSource store bid = some bytes)
    (h3 : store.delete q = .ok store') :
    readSource store' bid = some bytes ∧
    (q = p → store'.open_read p = .error (.doesNotExist p)) := by
  refine ⟨?_, ?_⟩
  · show store'.buffers[bid]? = some bytes
    rw [delete_buffers store store' q h3]
    exact h2
  · intro hqp
    subst hqp
    have hl := lookup_delete_self store store' q h3
    unfold RAMStore.open_read
    simp only [hl]

/-- Witness for C8 at a concrete store with one file of four bytes. -/
theorem C8_witness :
    readSource { buffers := [[1, 2, 3, 4]], files := [] } 0 = some [1, 2, 3, 4] ∧
    ("f" = "f" →
      RAMStore.open_read { buffers := [[1, 2, 3, 4]], files := [] } "f" =
        .error (.doesNotExist "f")) :=
  C8_source_survives_delete
    { buffers := [[1, 2, 3, 4]], files := [("f", 0)] }
    { buffers := [[1, 2, 3, 4]], files := [] }
    "f" "f" 0 [1, 2, 3, 4] (by rfl) (by rfl) (by rfl)

/-- A store whose meta.json bytes are not valid UTF-8. -/
def storeBad : RAMStore :=
  { buffers := [[255, 195]], files := [(META_FILEPATH, 0)] }

/-- C10: loading the meta never fails merely because the stored bytes are
not valid UTF-8: the bytes are first converted by the total lossy UTF-8
decoding, and only the JSON parse of the converted text can yield the
CorruptedFile error. -/
theorem C10_load_metas_lossy (store : RAMStore) (bytes : List Nat)
    (h : readBytes store META_FILEPATH = some bytes) :
    (∃ m, decodeMeta (utf8Lossy bytes) = some m ∧ load_metas store = .ok m) ∨
    (decodeMeta (utf8Lossy bytes) = none ∧
      load_metas store = .error (.corruptedFile META_FILEPATH)) := by
  cases hd : decodeMeta (utf8Lossy bytes) with
  | some m => exact Or.inl ⟨m, rfl, load_metas_some_ok store bytes m h hd⟩
  | none => exact Or.inr ⟨rfl, load_metas_some_fail store bytes h hd⟩

/-- Witness for C10 at a store whose meta bytes are invalid UTF-8: the
conversion is total and the failure is the CorruptedFile parse error. -/
theorem C10_witness :
    (∃ m, decodeMeta (utf8Lossy [255, 195]) = some m ∧
      load_metas storeBad = .ok m) ∨
    (decodeMeta (utf8Lossy [255, 195]) = none ∧
      load_metas storeBad = .error (.corruptedFile META_FILEPATH)) :=
  C10_load_metas_lossy storeBad [255, 195] (by rfl)

/-- C3: after a successful publish_segments of two segment ids, the
on-disk meta re-loads to exactly the in-memory meta (save_metas and
load_metas round-trip), and opening an index over the same directory
yields an index whose segment list is the old list with the two ids
appended and whose docstamp is the published one. -/
theorem C3_publish_then_open (env env2 : Env) (idx idx' : Index)
    (s1 s2 : SegmentId) (d : Nat) (u : Unit)
    (hpub : publish_segments env idx [s1, s2] d = (.ok u, idx'))
    (hopen : ∀ sid ∈ idx.metas.segments ++ [s1, s2], env2.openOk sid = true) :
    load_metas idx'.store = .ok idx'.metas ∧
    ∃ t, openIndex env2 idx'.store = .ok t ∧
      t.metas.segments = idx.metas.segments ++ [s1, s2] ∧
      t.metas.docstamp = d := by
  cases hw : env.writeOk
  · rw [publish_segments_eq_fail env idx [s1, s2] d hw] at hpub
    exact absurd hpub (by simp)
  · cases hf : (idx.metas.segments ++ [s1, s2]).find? (fun s => !env.openOk s) with
    | some sid =>
        rw [publish_segments_eq_openfail env idx [s1, s2] d sid hw hf] at hpub
        exact absurd hpub (by simp)
    | none =>
        have hall : ∀ s ∈ idx.metas.segments ++ [s1, s2], env.openOk s = true := by
          intro x hx
          have := List.find?_eq_none.mp hf x hx
          simpa using this
        rw [publish_segments_eq_ok env idx [s1, s2] d hw hall] at hpub
        have hidx : idx' =
            { metas := { segments := idx.metas.segments ++ [s1, s2], schema := idx.metas.schema, docstamp := d },
              store := idx.store.atomic_write META_FILEPATH ((encodeMeta { segments := idx.metas.segments ++ [s1, s2], schema := idx.metas.schema, docstamp := d }).map Char.toNat),
              schema := idx.schema,
              pool := { generation := idx.pool.generation + 1, queue := List.replicate NUM_SEARCHERS (idx.metas.segments ++ [s1, s2]) } } :=
          (congrArg Prod.snd hpub).symm
        subst hidx
        constructor
        · exact load_metas_atomic_write idx.store
            { segments := idx.metas.segments ++ [s1, s2], schema := idx.metas.schema, docstamp := d }
        · refine ⟨_, openIndex_eq_ok env2 _
            { segments := idx.metas.segments ++ [s1, s2], schema := idx.metas.schema, docstamp := d }
            (load_metas_atomic_write idx.store
              { segments := idx.metas.segments ++ [s1, s2], schema := idx.metas.schema, docstamp := d })
            (fun sid hs => hopen sid hs), rfl, rfl⟩

/-- Witness for C3 at a concrete publication and reopening. -/
theorem C3_witness :
    load_metas ((publish_segments envAll idx0 [3, 4] 7).2).store =
      .ok ((publish_segments envAll idx0 [3, 4] 7).2).metas ∧
    ∃ t, openIndex envAll ((publish_segments envAll idx0 [3, 4] 7).2).store = .ok t ∧
      t.metas.segments = idx0.metas.segments ++ [3, 4] ∧
      t.metas.docstamp = 7 :=
  C3_publish_then_open envAll envAll idx0 (publish_segments envAll idx0 [3, 4] 7).2
    3 4 7 () (by rfl) (by decide)

/-- C7: open yields DoesNotExist when meta.json is absent; it yields a
CorruptedFile error, always on the path meta.json, exactly when meta.json
holds bytes whose lossy-decoded text fails to parse as a meta document;
and whenever open returns an index, the meta loaded successfully and is
the returned index's meta. -/
theorem C7_open_error_kinds (env : Env) (store : RAMStore) :
    (readBytes store META_FILEPATH = none →
      openIndex env store = .error (.doesNotExist META_FILEPATH)) ∧
    (∀ p, openIndex env store = .error (.corruptedFile p) ↔
      (p = META_FILEPATH ∧ ∃ bytes, readBytes store META_FILEPATH = some bytes ∧
        decodeMeta (utf8Lossy bytes) = none)) ∧
    (∀ t, openIndex env store = .ok t → load_metas store = .ok t.metas) := by
  cases hb : readBytes store META_FILEPATH with
  | none =>
      have ho : openIndex env store = .error (.doesNotExist META_FILEPATH) :=
        openIndex_err_load env store _ (load_metas_none store hb)
      refine ⟨fun _ => ho, ?_, ?_⟩
      · intro p
        constructor
        · intro h
          rw [ho] at h
          simp at h
        · rintro ⟨hp, bytes, hby, hdec⟩
          exact absurd hby (by simp)
      · intro t ht
        rw [ho] at ht
        exact absurd ht (by simp)
  | some bytes =>
      cases hd : decodeMeta (utf8Lossy bytes) with
      | none =>
          have ho : openIndex env store = .error (.corruptedFile META_FILEPATH) :=
            openIndex_err_load env store _ (load_metas_some_fail store bytes hb hd)
          refine ⟨?_, ?_, ?_⟩
          · intro hnone
            exact absurd hnone (by simp)
          · intro p
            constructor
            · intro h
              rw [ho] at h
              simp only [Except.error.injEq, IndexError.corruptedFile.injEq] at h
              exact ⟨h.symm, bytes, rfl, hd⟩
            · rintro ⟨hp, b2, hb2, hd2⟩
              subst hp
              exact ho
          · intro t ht
            rw [ho] at ht
            exact absurd ht (by simp)
      | some m =>
          have hl : load_metas store = .ok m := load_metas_some_ok store bytes m hb hd
          cases hf : m.segments.find? (fun s => !env.openOk s) with
          | some sid =>
              have ho : openIndex env store = .error (.segmentOpenError sid) := by
                unfold openIndex
                simp only [hl]
                exact create_from_metas_fail env store m sid hf
              refine ⟨?_, ?_, ?_⟩
              · intro hnone
                exact absurd hnone (by simp)
              · intro p
                constructor
                · intro h
                  rw [ho] at h
                  exact absurd h (by simp)
                · rintro ⟨hp, b2, hb2, hd2⟩
                  have hbb : bytes = b2 := Option.some.inj hb2
                  subst hbb
                  rw [hd] at hd2
                  exact absurd hd2 (by simp)
              · intro t ht
                rw [ho] at ht
                exact absurd ht (by simp)
          | none =>
              have hall : ∀ sid ∈ m.segments, env.openOk sid = true := by
                intro x hx
                have := List.find?_eq_none.mp hf x hx
                simpa using this
              have ho := openIndex_eq_ok env store m hl hall
              refine ⟨?_, ?_, ?_⟩
              · intro hnone
                exact absurd hnone (by simp)
              · intro p
                constructor
                · intro h
                  rw [ho] at h
                  exact absurd h (by simp)
                · rintro ⟨hp, b2, hb2, hd2⟩
                  have hbb : bytes = b2 := Option.some.inj hb2
                  subst hbb
                  rw [hd] at hd2
                  exact absurd hd2 (by simp)
              · intro t ht
                rw [ho] at ht
                have h2 := Except.ok.inj ht
                rw [← h2]
                exact hl

/-- Witness for C7: an empty directory gives DoesNotExist; a directory
whose meta.json holds unparseable bytes gives CorruptedFile on
meta.json. -/
theorem C7_witness :
    openIndex envAll RAMStore.empty = .error (.doesNotExist META_FILEPATH) ∧
    openIndex envAll storeBad = .error (.corruptedFile META_FILEPATH) :=
  ⟨(C7_open_error_kinds envAll RAMStore.empty).1 (by rfl),
   ((C7_open_error_kinds envAll storeBad).2.1 META_FILEPATH).mpr
     ⟨rfl, [255, 195], by rfl, by rfl⟩⟩
